import Mathlib

/-!
Shallow embedding of the lemke-rs LCP solver (Lemke complementary pivoting
with lexicographic minimum-ratio anti-cycling), translated from the Rust
sources:

  src/lemke/tableau.rs       -- integer tableau, fraction-free pivot, ratio test
  src/lemke/tableau_vars.rs  -- variable map (basis/cobasis bookkeeping), solution
  src/lemke/lex_min_ratio.rs -- lexicographic minimum-ratio leaving-variable test
  src/lemke/lcp.rs           -- driver: scaling, validation, pivot loop
  src/lib.rs                 -- an older duplicate Tableau implementation

Modelling conventions:
  * BigInt is modelled as Int.  Rust BigInt division truncates toward zero,
    so `a.div(b)` is modelled as `Int.tdiv a b` (Lean `/` on Int is not
    truncating division).
  * BigRational is modelled as Rat: both are kept reduced with positive
    denominator.
  * A Rust `Vec` is a Lean `List`; out-of-bounds reads, which panic in Rust,
    are modelled with `List.getD` (all reads exercised by the claims are in
    bounds).  Out-of-bounds writes that a claim depends on, and `panic!`
    calls, are modelled explicitly with `Except`.
  * While-loops whose iteration count is bounded by the code itself are
    translated with structural recursion on that bound; the one genuinely
    unbounded loop (the driver pivot loop with pivot_max = 0) takes an
    explicit fuel parameter.
-/

/-- Errors corresponding to the `panic!` sites of the Rust code. -/
inductive LcpError where
  /-- lex_min_ratio.rs: "Ray termination when trying to enter ...". -/
  | rayTermination
  /-- lex_min_ratio.rs: "Variable ... is already in basis. Must be cobasic to enter.". -/
  | enterBasic
  /-- Vec index out of bounds (Rust panics), e.g. swap_remove with index >= len. -/
  | indexOutOfBounds
  /-- tableau_vars.rs complement(): "Attempt to find complement of z0.". -/
  | complementOfZ0
  /-- tableau.rs pivot(): "Trying to pivot on a zero". -/
  | pivotOnZero
  /-- tableau_vars.rs pivot(): "... is not in the basis". -/
  | leaveNotBasic
  /-- lcp.rs validate_inputs(): "Covering vector d[i] negative ...". -/
  | negativeCoveringVector
  /-- lcp.rs validate_inputs(): "Covering vector d[i] = 0 where q[i] negative ...". -/
  | zeroCoveringVector
  /-- lcp.rs validate_inputs(): "No need to start Lemke since q>=0. Trivial solution z=0.". -/
  | trivialSolutionPanic
  /-- lcp.rs new(): "M and q are not right dimensions". -/
  | dimensionMismatch
  /-- lcp.rs new(): "M must be a square matrix". -/
  | nonSquareMatrix
  /-- num BigInt: remainder by zero panics (euclid_gcd body entered with b = 0). -/
  | divisionByZero
  /-- Model artifact: the explicit fuel of the driver loop ran out. -/
  | outOfFuel
deriving DecidableEq, Repr

/-! ## Tableau (src/lemke/tableau.rs) -/

/-- `Tableau` from src/lemke/tableau.rs: a dense `nrows x ncols` matrix of big
integers in a flat row-major vector, together with a determinant scalar. -/
structure Tableau where
  values : List Int
  ncols : Nat
  nrows : Nat
  determinant : Int
deriving DecidableEq, Repr

/-- `Tableau::new(n)`: an `n x (n+2)` zero matrix with determinant -1. -/
def Tableau.new (n : Nat) : Tableau :=
  { values := List.replicate ((n + 2) * n) 0
    ncols := n + 2
    nrows := n
    determinant := -1 }

/-- `Tableau::set`: write one cell (row-major index `row * ncols + col`). -/
def Tableau.set (t : Tableau) (row col : Nat) (value : Int) : Tableau :=
  { t with values := t.values.set (row * t.ncols + col) value }

/-- `Tableau::entry`: read one cell. -/
def Tableau.entry (t : Tableau) (row col : Nat) : Int :=
  t.values.getD (row * t.ncols + col) 0

/-- `Tableau::negate_row`: pointwise negation of row `row`. -/
def Tableau.negate_row (t : Tableau) (row : Nat) : Tableau :=
  (List.range t.ncols).foldl (fun acc j => acc.set row j (-(acc.entry row j))) t

/-- `Tableau::negate_col`: pointwise negation of column `col`. -/
def Tableau.negate_col (t : Tableau) (col : Nat) : Tableau :=
  (List.range t.nrows).foldl (fun acc i => acc.set i col (-(acc.entry i col))) t

/-- The two nested update loops of `Tableau::pivot` in src/lemke/tableau.rs
(`for i in 0..nrows, i != row { nonzero := A[i,col] != 0; for j in 0..ncols,
j != col { tmp1 := A[i,j] * a; if nonzero { tmp2 := A[row,j] * A[i,col];
tmp1 := tmp1 plus-or-minus tmp2 }; A[i,j] := tmp1 / D }; if nonzero and not negpivot
{ A[i,col] := -A[i,col] } }`). -/
def Tableau.pivotLoops (t : Tableau) (row col : Nat) (a : Int) (negpivot : Bool)
    (D : Int) : Tableau :=
  (List.range t.nrows).foldl (fun acc i =>
    if i = row then acc
    else
      let nonzero : Bool := acc.entry i col != 0
      let acc2 :=
        (List.range acc.ncols).foldl (fun acc2 j =>
          if j = col then acc2
          else
            let tmp1 := (acc2.entry i j) * a
            let tmp1 :=
              if nonzero then
                let tmp2 := (acc2.entry row j) * (acc2.entry i col)
                if negpivot then tmp1 + tmp2 else tmp1 - tmp2
              else tmp1
            acc2.set i j (Int.tdiv tmp1 D)) acc
      if nonzero && !negpivot then acc2.set i col (-(acc2.entry i col)) else acc2) t

/-- `Tableau::pivot(row, col)` from src/lemke/tableau.rs.  Panics ("Trying to
pivot on a zero") when the pivot entry is zero, modelled as `none`.  The new
determinant is the absolute value of the pivot entry. -/
def Tableau.pivot (t : Tableau) (row col : Nat) : Option Tableau :=
  let p := t.entry row col
  if p = 0 then none
  else
    let a := |p|
    let negpivot : Bool := decide (p < 0)
    let D := t.determinant
    let t1 := t.pivotLoops row col a negpivot D
    let t2 := t1.set row col D
    let t3 := if negpivot then t2.negate_row row else t2
    some { t3 with determinant := a }

/-- `Tableau::ratio_test(rowa, rowb, cola, colb)`: the sign of
`A[rowa,colb] * A[rowb,cola] - A[rowb,colb] * A[rowa,cola]`, as an
`Ordering` (`a.cmp(&b)`). -/
def Tableau.ratio_test (t : Tableau) (rowa rowb cola colb : Nat) : Ordering :=
  let a := (t.entry rowa colb) * (t.entry rowb cola)
  let b := (t.entry rowb colb) * (t.entry rowa cola)
  compare a b

/-! ## The duplicate Tableau implementation in src/lib.rs

The struct in src/lib.rs has the same representation (flat row-major values,
ncols, nrows, determinant), so its `pivot` is modelled on the same `Tableau`
type.  The body differs textually from src/lemke/tableau.rs only in the order
of the two multiplications and in the final determinant assignment
(`self.determinant = pivelt`, the signed pivot entry, instead of its absolute
value). -/

/-- The nested update loops of `Tableau::pivot` in src/lib.rs
(`tmp1 := pivelt.abs() * A[i,j]`, `tmp2 := A[i,col] * A[row,j]`). -/
def libPivotLoops (t : Tableau) (row col : Nat) (a : Int) (negpivot : Bool)
    (D : Int) : Tableau :=
  (List.range t.nrows).foldl (fun acc i =>
    if i = row then acc
    else
      let nonzero : Bool := acc.entry i col != 0
      let acc2 :=
        (List.range acc.ncols).foldl (fun acc2 j =>
          if j = col then acc2
          else
            let tmp1 := a * (acc2.entry i j)
            let tmp1 :=
              if nonzero then
                let tmp2 := (acc2.entry i col) * (acc2.entry row j)
                if negpivot then tmp1 + tmp2 else tmp1 - tmp2
              else tmp1
            acc2.set i j (Int.tdiv tmp1 D)) acc
      if nonzero && !negpivot then acc2.set i col (-(acc2.entry i col)) else acc2) t

/-- `Tableau::pivot(row, col)` from src/lib.rs.  Identical to the lemke
version except for the multiplication order inside the loops and the final
`self.determinant = pivelt` (signed). -/
def libPivot (t : Tableau) (row col : Nat) : Option Tableau :=
  let pivelt := t.entry row col
  if pivelt = 0 then none
  else
    let a := |pivelt|
    let negpivot : Bool := decide (pivelt < 0)
    let D := t.determinant
    let t1 := libPivotLoops t row col a negpivot D
    let t2 := t1.set row col D
    let t3 := if negpivot then t2.negate_row row else t2
    some { t3 with determinant := pivelt }

/-! ## Variable map (src/lemke/tableau_vars.rs) -/

/-- `TableauVariable`: a symbolic variable encoded as an index `value` in
`[0, 2n]`: 0 is z0, `1..n` are `z1..zn`, `n+1..2n` are `w1..wn`. -/
structure TableauVariable where
  value : Nat
  n : Nat
deriving DecidableEq, Repr

/-- `TableauVariable::is_z`: `value <= n`. -/
def TableauVariable.is_z (v : TableauVariable) : Bool :=
  v.value ≤ v.n

/-- `TableauVariable::is_w`: `value > n`. -/
def TableauVariable.is_w (v : TableauVariable) : Bool :=
  v.value > v.n

/-- `TableauVariable::is_z0`: `value == 0`. -/
def TableauVariable.is_z0 (v : TableauVariable) : Bool :=
  v.value = 0

/-- `TableauVariable::complement`: w(i) for z(i) and vice versa; panics on z0
("Attempt to find complement of z0."), modelled as an error. -/
def TableauVariable.complement (v : TableauVariable) : Except LcpError TableauVariable :=
  if v.value = 0 then .error .complementOfZ0
  else if v.is_z then .ok { value := v.value + v.n, n := v.n }
  else .ok { value := v.value - v.n, n := v.n }

/-- `TableauVariables`: the bijection between variables and tableau
rows/columns, as two parallel index vectors of length `2n+1`.
`vars2rowcol[v]` is the row of `v` (if `< n`, `v` basic) or `n +` the column
of `v` (if `>= n`, `v` cobasic); `rowcol2vars` is the inverse. -/
structure TableauVariables where
  vars2rowcol : List Nat
  rowcol2vars : List Nat
  n : Nat
deriving DecidableEq, Repr

/-- `TableauVariables::new(n)`: z0..zn cobasic at columns 0..n, w1..wn basic
at rows 0..n-1.  The two initialisation loops of the source
(`rowcol2vars[i-1] = i + n; vars2rowcol[i+n] = i - 1` for `i in 1..=n` and
`rowcol2vars[i+n] = i; vars2rowcol[i] = n + i` for `i in 0..=n`) produce
exactly these position-indexed values. -/
def TableauVariables.new (n : Nat) : TableauVariables :=
  { vars2rowcol := List.ofFn (fun v : Fin (2 * n + 1) =>
      if v.1 ≤ n then n + v.1 else v.1 - n - 1)
    rowcol2vars := List.ofFn (fun p : Fin (2 * n + 1) =>
      if p.1 < n then p.1 + 1 + n else p.1 - n)
    n := n }

/-- `TableauVariables::z(idx)`. -/
def TableauVariables.z (vars : TableauVariables) (idx : Nat) : TableauVariable :=
  { value := idx, n := vars.n }

/-- `TableauVariables::w(idx)`. -/
def TableauVariables.w (vars : TableauVariables) (idx : Nat) : TableauVariable :=
  { value := idx + vars.n, n := vars.n }

/-- `TableauVariables::from_row(row)`: the variable basic at `row`. -/
def TableauVariables.from_row (vars : TableauVariables) (row : Nat) : TableauVariable :=
  { value := vars.rowcol2vars.getD row 0, n := vars.n }

/-- `TableauVariables::from_col(col)`: the variable cobasic at `col`. -/
def TableauVariables.from_col (vars : TableauVariables) (col : Nat) : TableauVariable :=
  { value := vars.rowcol2vars.getD (col + vars.n) 0, n := vars.n }

/-- `TableauVariables::to_row(var)`: the position of `var` (meaningful as a
row only when `var` is basic). -/
def TableauVariables.to_row (vars : TableauVariables) (v : TableauVariable) : Nat :=
  vars.vars2rowcol.getD v.value 0

/-- `TableauVariables::to_col(var)`: position minus `n` (meaningful as a
column only when `var` is cobasic; the Rust usize subtraction is modelled by
truncated Nat subtraction). -/
def TableauVariables.to_col (vars : TableauVariables) (v : TableauVariable) : Nat :=
  vars.vars2rowcol.getD v.value 0 - vars.n

/-- `TableauVariables::is_basic(var)`: `vars2rowcol[value] < n`. -/
def TableauVariables.is_basic (vars : TableauVariables) (v : TableauVariable) : Bool :=
  vars.vars2rowcol.getD v.value 0 < vars.n

/-- `TableauVariables::rhs_col()`: `n + 1`. -/
def TableauVariables.rhs_col (vars : TableauVariables) : Nat :=
  vars.n + 1

/-- `TableauVariables::negate_rhs`: negate the RHS column of the tableau. -/
def TableauVariables.negate_rhs (vars : TableauVariables) (t : Tableau) : Tableau :=
  t.negate_col vars.rhs_col

/-- `TableauVariables::swap(enter, leave)`: exchange the positions of the
basic `leave` and the cobasic `enter`; returns the new variable map together
with `(leave_row, enter_col)`. -/
def TableauVariables.swap (vars : TableauVariables) (enter leave : TableauVariable) :
    TableauVariables × Nat × Nat :=
  let leave_row := vars.to_row leave
  let enter_col := vars.to_col enter
  let v2rc := (vars.vars2rowcol.set leave.value (enter_col + vars.n)).set enter.value leave_row
  let rc2v := (vars.rowcol2vars.set (enter_col + vars.n) leave.value).set leave_row enter.value
  ({ vars with vars2rowcol := v2rc, rowcol2vars := rc2v }, leave_row, enter_col)

/-- `TableauVariables::pivot(tableau, leave, enter)`: check that `leave` is
basic and `enter` cobasic (panicking otherwise), swap them, and pivot the
tableau on the swapped coordinates. -/
def TableauVariables.pivot (vars : TableauVariables) (t : Tableau)
    (leave enter : TableauVariable) : Except LcpError (TableauVariables × Tableau) :=
  if !(vars.is_basic leave) then .error .leaveNotBasic
  else if vars.is_basic enter then .error .enterBasic
  else
    let (vars2, row, col) := vars.swap enter leave
    match t.pivot row col with
    | none => .error .pivotOnZero
    | some t2 => .ok (vars2, t2)

/-- `TableauVariables::result(tableau, scale_factors, var)`: the rational
value of one variable in the current basic solution.  For a basic variable at
`row` the code computes `scale_factor * A[row, rhs] / (determinant *
scale_factors[rhs])`, where `scale_factor` is `scale_factors[row]` for a
z-variable and 1 for a w-variable; a cobasic variable has value 0.
`Ratio::new(numer, denom)`, which reduces the fraction and normalises the
sign, is modelled by `Rat.divInt numer denom` (the denominator is never zero
on the executions considered here). -/
def TableauVariables.result (vars : TableauVariables) (t : Tableau)
    (scale_factors : List Int) (v : TableauVariable) : Rat :=
  if vars.is_basic v then
    let row := vars.to_row v
    let scale_factor : Int := if v.is_z then scale_factors.getD row 0 else 1
    let col := vars.rhs_col
    let numer := scale_factor * t.entry row col
    let denom := t.determinant * scale_factors.getD col 0
    Rat.divInt numer denom
  else 0

/-- `TableauVariables::solution(tableau, scale_factors)`: the values of
z1..zn, in order. -/
def TableauVariables.solution (vars : TableauVariables) (t : Tableau)
    (scale_factors : List Int) : List Rat :=
  (List.range vars.n).map (fun i => vars.result t scale_factors (vars.z (i + 1)))

/-! ## Lexicographic minimum-ratio test (src/lemke/lex_min_ratio.rs) -/

/-- Rust `Vec::swap_remove(i)`: remove the element at index `i`, replacing it
with the last element; panics (modelled as `none`) when `i >= len`. -/
def swapRemove (l : List Nat) (i : Nat) : Option (List Nat) :=
  if i < l.length then
    match l.getLast? with
    | some last => some ((l.set i last).dropLast)
    | none => none
  else none

/-- `take_min_ratio_rows(tableau, enter_col, test_col, leave_candidate_rows)`:
keep, among the candidate rows, those attaining the minimal ratio
`A[i, test_col] / A[i, enter_col]`.  The source keeps a growing block of
minima at the front of the vector: on `Equal` the candidate is appended to
the block, on `Greater` (a strictly smaller ratio found) the block restarts
with the new candidate, on `Less` the candidate is dropped; the vector is
then truncated to the block. -/
def take_min_ratio_rows (t : Tableau) (enter_col test_col : Nat)
    (leave_candidate_rows : List Nat) : List Nat :=
  match leave_candidate_rows with
  | [] => []
  | c0 :: rest =>
    rest.foldl (fun keep ci =>
      match t.ratio_test (keep.headD 0) ci enter_col test_col with
      | .eq => keep ++ [ci]
      | .gt => [ci]
      | .lt => keep) [c0]

/-- `process_rhs(tableau, vars, enter_col, leave_candidate_rows)`: reduce the
candidates against the RHS column, then report whether any surviving row is
the row of z0.  Returns the computed boolean together with the reduced
candidate list (which the Rust mutates in place). -/
def process_rhs (t : Tableau) (vars : TableauVariables) (enter_col : Nat)
    (leave_candidate_rows : List Nat) : Bool × List Nat :=
  let cand := take_min_ratio_rows t enter_col vars.rhs_col leave_candidate_rows
  (cand.any (fun i => (vars.from_row i).is_z0), cand)

/-- The `while leave_candidate_rows.len() > 1` loop of `process_candidates`,
with the loop counter `j` starting at 1.  An iteration with `j > n` would
index `vars2rowcol[j + n]` out of bounds in Rust (a panic); this bounds the
number of iterations, and the structural `fuel` argument (called with `n + 2`,
enough for `j = 1..n+1`) therefore never runs out. -/
def process_candidates_loop (t : Tableau) (vars : TableauVariables)
    (enter_col : Nat) : Nat → Nat → List Nat → Except LcpError (List Nat)
  | 0, _, _ => .error .outOfFuel
  | fuel + 1, j, cand =>
    if cand.length > 1 then
      if j > vars.n then .error .indexOutOfBounds
      else
        let wj := vars.w j
        if vars.is_basic wj then
          match swapRemove cand (vars.to_row wj) with
          | none => .error .indexOutOfBounds
          | some cand2 => process_candidates_loop t vars enter_col fuel (j + 1) cand2
        else
          let test_col := vars.to_col wj
          if test_col ≠ enter_col then
            process_candidates_loop t vars enter_col fuel (j + 1)
              (take_min_ratio_rows t enter_col test_col cand)
          else process_candidates_loop t vars enter_col fuel (j + 1) cand
    else .ok cand

/-- `process_candidates(tableau, vars, enter_col, leave_candidate_rows)`:
first the RHS reduction (computing `z0_can_leave`), then minimum-ratio tests
against the columns of w(1), w(2), ... while more than one candidate
remains. -/
def process_candidates (t : Tableau) (vars : TableauVariables) (enter_col : Nat)
    (leave_candidate_rows : List Nat) : Except LcpError (Bool × List Nat) := do
  let (z0_can_leave, cand) := process_rhs t vars enter_col leave_candidate_rows
  let cand2 ← process_candidates_loop t vars enter_col (vars.n + 2) 1 cand
  .ok (z0_can_leave, cand2)

/-- The candidate rows `{ i in [0, n) : A[i, enter_col] > 0 }` collected by
the first loop of `lexminratio`. -/
def leaveCandidateRows (t : Tableau) (vars : TableauVariables) (enter_col : Nat) :
    List Nat :=
  (List.range vars.n).filter (fun i => 0 < t.entry i enter_col)

/-- `lexminratio(tableau, vars, enter)` from src/lemke/lex_min_ratio.rs.
Panics if `enter` is basic or if no candidate row exists (ray termination).
Note that the source initialises a local `z0leave = false`, separately
computes `z0_can_leave` via `process_candidates`, and then returns the stale
`z0leave` as the boolean component of its result. -/
def lexminratio (t : Tableau) (vars : TableauVariables) (enter : TableauVariable) :
    Except LcpError (TableauVariable × Bool) :=
  let z0leave := false
  if vars.is_basic enter then .error .enterBasic
  else
    let enter_col := vars.to_col enter
    let cand := leaveCandidateRows t vars enter_col
    if cand.length = 0 then .error .rayTermination
    else do
      let (_z0_can_leave, cand2) ← process_candidates t vars enter_col cand
      .ok (vars.from_row (cand2.headD 0), z0leave)

/-! ## LCP driver (src/lemke/lcp.rs) -/

/-- `euclid_gcd(a, b)` from src/lemke/lcp.rs.  The loop guard in the source
is `while BigInt::zero().eq(&b)`, i.e. the loop runs only while `b == 0`; in
that case its first statement computes `a % 0`, which panics for BigInt
(modelled as `none`).  When `b != 0` the loop body never runs and the
function returns `a` unchanged. -/
def euclid_gcd (a b : Int) : Option Int :=
  if b = 0 then none else some a

/-- `compute_scale_factor` from src/lemke/lcp.rs applied to a column of
rationals: fold `lcm = lcm / euclid_gcd(lcm, denom) * denom` over the column,
starting from 1 (division is truncating BigInt division). -/
def compute_scale_factor (column : List Rat) : Option Int :=
  column.foldlM (fun lcm rat =>
    (euclid_gcd lcm (rat.den : Int)).map (fun gcd =>
      (Int.tdiv lcm gcd) * (rat.den : Int))) 1

/-- The denominator-LCM that the doc comment of `compute_scale_factor`
("compute lcm of denominators for col j of A") and the specification describe:
iterated `lcm(a, b) = a / gcd(a, b) * b` with a correct Euclidean gcd. -/
def specLcmOfDenominators (column : List Rat) : Int :=
  column.foldl (fun lcm rat => (Int.tdiv lcm (Int.gcd lcm (rat.den : Int))) * (rat.den : Int)) 1

/-- One column of `init_tableau` / `add_covering_vector`: scale each rational
to an integer, `numer * scale_factor / denom` (truncating division). -/
def scaleColumn (column : List Rat) (scale_factor : Int) : List Int :=
  column.map (fun rat => Int.tdiv (rat.num * scale_factor) (rat.den : Int))

/-- Write a full column into the tableau (the inner `for i in 0..nrows` loops
of `init_tableau` and `add_covering_vector`). -/
def Tableau.setColumn (t : Tableau) (col : Nat) (entries : List Int) : Tableau :=
  (List.range t.nrows).foldl (fun acc i => acc.set i col (entries.getD i 0)) t

/-- The `LCP` struct of src/lemke/lcp.rs: problem data plus tableau, variable
map and scale factors. -/
structure LCP where
  m : List Rat
  q : List Rat
  n : Nat
  d : List Rat
  tableau : Tableau
  vars : TableauVariables
  scale_factors : List Int
deriving DecidableEq, Repr

/-- Column `j` of the input as read by `init_tableau`: column `j - 1` of `M`
for `j <= n`, and `q` for `j = n + 1`. -/
def inputColumn (m q : List Rat) (n j : Nat) : List Rat :=
  (List.range n).map (fun i => if j = n + 1 then q.getD i 0 else m.getD (i * n + (j - 1)) 0)

/-- `init_tableau`: for each column `j in 1..=n+1`, compute the scale factor
of the source column, fill the tableau column with the scaled integers, and
record the scale factor. -/
def init_tableau (lcp : LCP) : Except LcpError LCP :=
  (List.range (lcp.tableau.ncols - 1)).foldlM (fun acc jm1 =>
    let j := jm1 + 1
    let column := inputColumn acc.m acc.q acc.n j
    match compute_scale_factor column with
    | none => .error .divisionByZero
    | some scale_factor =>
      .ok { acc with
              tableau := acc.tableau.setColumn j (scaleColumn column scale_factor)
              scale_factors := acc.scale_factors.set j scale_factor }) lcp

/-- `LCP::new(m, q)`: dimension checks, then the initial tableau.  The panics
("M and q are not right dimensions", "M must be a square matrix") are
modelled as errors. -/
def LCP.new (m q : List Rat) : Except LcpError LCP :=
  if m.length % q.length ≠ 0 then .error .dimensionMismatch
  else
    let ncols := m.length / q.length
    let nrows := q.length
    if ncols ≠ nrows then .error .nonSquareMatrix
    else
      init_tableau
        { m := m, q := q, n := nrows
          d := List.replicate nrows 0
          vars := TableauVariables.new nrows
          tableau := Tableau.new nrows
          scale_factors := List.replicate (nrows + 2) 0 }

/-- `add_covering_vector(d)`: scale factor and scaled entries for column 0. -/
def add_covering_vector (lcp : LCP) (d : List Rat) : Except LcpError LCP :=
  match compute_scale_factor d with
  | none => .error .divisionByZero
  | some scale_factor =>
    .ok { lcp with
            d := d
            tableau := lcp.tableau.setColumn 0 (scaleColumn d scale_factor)
            scale_factors := lcp.scale_factors.set 0 scale_factor }

/-- The validation loop of `validate_inputs`, index-by-index: `d[i] < 0`
panics; `q[i] < 0` clears `is_q_pos` and additionally panics when
`d[i] = 0`. -/
def validate_loop (q d : List Rat) : Nat → Bool → Except LcpError Bool
  | 0, is_q_pos => .ok is_q_pos
  | i + 1, is_q_pos => do
    let is_q_pos2 ← validate_loop q d i is_q_pos
    if d.getD i 0 < 0 then .error .negativeCoveringVector
    else if q.getD i 0 < 0 then
      if d.getD i 0 = 0 then .error .zeroCoveringVector
      else .ok false
    else .ok is_q_pos2

/-- `validate_inputs(q, d)` from src/lemke/lcp.rs: asserts `d >= 0`, that
`q[i] < 0` implies `d[i] > 0`, and panics with "No need to start Lemke since
q>=0. Trivial solution z=0." when every `q[i] >= 0`. -/
def validate_inputs (q d : List Rat) : Except LcpError Unit := do
  let is_q_pos ← validate_loop q d q.length true
  if is_q_pos then .error .trivialSolutionPanic else .ok ()

/-- The `loop { ... }` of `lemke_with_pivot_max`, from the first pivot on.
One recursive step is one loop iteration: pivot, break on `z0_can_leave`,
take the complement as the next entering variable, run `lexminratio` again,
and stop when `pivot_count == pivot_max`.  The loop is genuinely unbounded
when `pivot_max = 0`, so it takes an explicit fuel parameter (a model
artifact). -/
def lemke_loop (pivot_max : Nat) :
    Nat → LCP → TableauVariable → TableauVariable → Bool → Nat →
    Except LcpError LCP
  | 0, _, _, _, _, _ => .error .outOfFuel
  | fuel + 1, lcp, enter, leave, z0_can_leave, pivot_count => do
    let (vars2, tab2) ← lcp.vars.pivot lcp.tableau leave enter
    let lcp := { lcp with vars := vars2, tableau := tab2 }
    if z0_can_leave then .ok lcp
    else do
      let enter2 ← leave.complement
      let (leave2, z0_2) ← lexminratio lcp.tableau lcp.vars enter2
      if pivot_count = pivot_max then .ok lcp
      else lemke_loop pivot_max fuel lcp enter2 leave2 z0_2 (pivot_count + 1)

/-- `lemke_with_pivot_max(m, q, d, pivot_max)` from src/lemke/lcp.rs:
validate, build the LCP, enter z0, run the first `lexminratio`, negate the
RHS column, run the pivot loop, and read off the solution. -/
def lemke_with_pivot_max (m q d : List Rat) (pivot_max : Nat) (fuel : Nat) :
    Except LcpError (List Rat) := do
  validate_inputs q d
  let lcp0 ← LCP.new m q
  let lcp1 ← add_covering_vector lcp0 d
  let enter := lcp1.vars.z 0
  let (leave, z0_can_leave) ← lexminratio lcp1.tableau lcp1.vars enter
  let lcp2 := { lcp1 with tableau := lcp1.vars.negate_rhs lcp1.tableau }
  let lcpFinal ← lemke_loop pivot_max fuel lcp2 enter leave z0_can_leave 1
  .ok (lcpFinal.vars.solution lcpFinal.tableau lcpFinal.scale_factors)

/-- `lemke(m, q, d)`: unlimited pivots (`pivot_max = 0`). -/
def lemke (m q d : List Rat) (fuel : Nat) : Except LcpError (List Rat) :=
  lemke_with_pivot_max m q d 0 fuel

/-! ## Decidable equality on Except results -/

instance {ε : Type} {α : Type} [DecidableEq ε] [DecidableEq α] :
    DecidableEq (Except ε α) := fun x y =>
  match x, y with
  | .ok a, .ok b =>
    if h : a = b then .isTrue (h ▸ rfl) else .isFalse (fun hc => h (Except.ok.inj hc))
  | .error e, .error f =>
    if h : e = f then .isTrue (h ▸ rfl) else .isFalse (fun hc => h (Except.error.inj hc))
  | .ok _, .error _ => .isFalse Except.noConfusion
  | .error _, .ok _ => .isFalse Except.noConfusion

/-! ## Concrete fixtures used by the theorems below -/

/-- The 2x4 tableau used by the `lexminvar_works` test of
src/lemke/lex_min_ratio.rs: rows `[2, 2, 1, -1]` and `[1, 1, 3, -1]`. -/
def sampleTab : Tableau :=
  { values := [2, 2, 1, -1, 1, 1, 3, -1], ncols := 4, nrows := 2, determinant := -1 }

/-- An n = 1 variable map in which z0 is basic at row 0 and w1 cobasic at
column 0 (the state after the first pivot `z0` in, `w1` out), with z1 still
cobasic at column 1. -/
def varsZ0Basic : TableauVariables :=
  { vars2rowcol := [0, 2, 1], rowcol2vars := [0, 2, 1], n := 1 }

/-- An n = 1 tableau whose column 1 (the column of z1 under `varsZ0Basic`)
has a positive entry in row 0. -/
def tabZ1Enter : Tableau :=
  { values := [-1, 1, 5], ncols := 3, nrows := 1, determinant := 1 }

/-- An n = 3 variable map in which w1 is basic at row 2 (w2 and w3 basic at
rows 0 and 1, z0..z3 cobasic at columns 0..3). -/
def varsW1Row2 : TableauVariables :=
  { vars2rowcol := [3, 4, 5, 6, 2, 0, 1], rowcol2vars := [5, 6, 4, 0, 1, 2, 3], n := 3 }

/-- An n = 2 variable map in which z1 is basic at row 0 and w2 basic at row
1 (z0, z2, w1 cobasic at columns 2, 1, 0). -/
def varsZ1Row0 : TableauVariables :=
  { vars2rowcol := [4, 0, 3, 2, 1], rowcol2vars := [1, 4, 3, 2, 0], n := 2 }

/-- An n = 2 tableau with RHS column `[1, 7]` and determinant 1. -/
def tabZ1Row0 : Tableau :=
  { values := [0, 0, 0, 1, 0, 0, 0, 7], ncols := 4, nrows := 2, determinant := 1 }

/-- A 1x3 tableau whose only entry in column 0 is negative (pivot entry -2,
initial determinant -1). -/
def tabNegPivot : Tableau :=
  { values := [-2, 0, 0], ncols := 3, nrows := 1, determinant := -1 }

/-- An n = 1 tableau with no positive entry in column 0. -/
def tabNoPositive : Tableau :=
  { values := [-3, 0, 4], ncols := 3, nrows := 1, determinant := -1 }

/-! ## Well-formedness of the variable map -/

/-- The bijection invariant of the variable map: both index vectors have
length `2n+1`, stay within `[0, 2n]`, and are mutual inverses. -/
def TableauVariables.wf (vars : TableauVariables) : Prop :=
  vars.vars2rowcol.length = 2 * vars.n + 1 ∧
  vars.rowcol2vars.length = 2 * vars.n + 1 ∧
  (∀ v, v < 2 * vars.n + 1 →
    vars.vars2rowcol.getD v 0 < 2 * vars.n + 1 ∧
    vars.rowcol2vars.getD (vars.vars2rowcol.getD v 0) 0 = v) ∧
  (∀ p, p < 2 * vars.n + 1 →
    vars.rowcol2vars.getD p 0 < 2 * vars.n + 1 ∧
    vars.vars2rowcol.getD (vars.rowcol2vars.getD p 0) 0 = p)

/-- The number of basic variables: positions in `vars2rowcol` below `n`. -/
def basicCount (vars : TableauVariables) : Nat :=
  vars.vars2rowcol.countP (fun p => decide (p < vars.n))

/-- The number of cobasic variables: positions in `vars2rowcol` at or above
`n`. -/
def cobasicCount (vars : TableauVariables) : Nat :=
  vars.vars2rowcol.countP (fun p => decide (¬ p < vars.n))

/-- The variable map obtained from the initial n = 2 map by pivoting w1 out
and z0 in (z0 basic at row 0, w1 cobasic at column 0). -/
def varsAfterPivot : TableauVariables :=
  { vars2rowcol := [0, 3, 4, 2, 1], rowcol2vars := [0, 4, 3, 1, 2], n := 2 }

/-- The tableau obtained from `sampleTab` by pivoting on (0, 0). -/
def tabAfterPivot : Tableau :=
  { values := [-1, 2, 1, -1, -1, 0, -5, 1], ncols := 4, nrows := 2, determinant := 2 }

/-! ## C1: the boolean returned by lexminratio -/

/-- C1: at a state where the entering variable z1 is cobasic, its column has
a positive entry, and z0 survives the RHS ratio-test reduction (so
`process_rhs` computes `true`), `lexminratio` nevertheless returns `false`
as its boolean component: the source computes `z0_can_leave` and then
returns the stale local `z0leave`.  This refutes the claim that the returned
boolean is true iff z0 is among the candidates surviving the RHS
reduction. -/
theorem lexminratio_drops_z0_flag :
    varsZ0Basic.is_basic (varsZ0Basic.z 1) = false
    ∧ leaveCandidateRows tabZ1Enter varsZ0Basic (varsZ0Basic.to_col (varsZ0Basic.z 1)) = [0]
    ∧ (process_rhs tabZ1Enter varsZ0Basic (varsZ0Basic.to_col (varsZ0Basic.z 1)) [0]).1 = true
    ∧ varsZ0Basic.from_row 0 = varsZ0Basic.z 0
    ∧ lexminratio tabZ1Enter varsZ0Basic (varsZ0Basic.z 1) = .ok (varsZ0Basic.z 0, false) := by
  refine ⟨by decide, by decide, by decide, by decide, by decide⟩

/-! ## C2: Scenario A end to end -/

/-- C2: on M = [[2,1],[1,3]], q = [-1,-1], d = [2,1] with unlimited pivots
(`pivot_max = 0`) the solver does not return z = [2/5, 1/5]: because
`lexminratio` always reports `false` for `z0_can_leave`, the driver never
breaks out of the pivot loop when z0 leaves the basis, and the next
iteration asks for the complement of z0, which panics.  The run fails with
that panic for every fuel, refuting the claim (and the `lemke2` unit test of
src/lemke/lcp.rs). -/
theorem lemke_scenario_a_fails :
    lemke [2, 1, 1, 3] [-1, -1] [2, 1] 50 = .error .complementOfZ0
    ∧ ∀ fuel, lemke [2, 1, 1, 3] [-1, -1] [2, 1] fuel
        ≠ .ok [Rat.divInt 2 5, Rat.divInt 1 5] := by
  refine ⟨by decide, fun fuel => ?_⟩
  match fuel with
  | 0 => decide
  | 1 => decide
  | 2 => decide
  | (n + 3) =>
    have h : lemke [2, 1, 1, 3] [-1, -1] [2, 1] (n + 3) = .error .complementOfZ0 := rfl
    simp [h]

/-! ## C3: the trivial-solution path -/

/-- C3: for q = [1,1] >= 0 (with valid d = [1,1] and M the identity) the
solver does not return the zero vector: `validate_inputs` panics with "No
need to start Lemke since q>=0. Trivial solution z=0.", so the solve fails
for every pivot bound and fuel, refuting the claim that TrivialSolution is a
successful result. -/
theorem trivial_q_panics :
    validate_inputs [1, 1] [1, 1] = .error .trivialSolutionPanic
    ∧ (∀ fuel pivot_max,
        lemke_with_pivot_max [1, 0, 0, 1] [1, 1] [1, 1] pivot_max fuel
          = .error .trivialSolutionPanic) := by
  exact ⟨by decide, fun _ _ => rfl⟩

/-! ## C4: the scale factor is not the LCM of the denominators -/

/-- C4: on the column [1/2, 1/3] the code returns scale factor 3 (the last
denominator) while the LCM of the denominators is 6: the gcd loop guard of
`euclid_gcd` is inverted (`while b == 0`), so the gcd returned is the running
accumulator itself and the fold degenerates to the last denominator.  The
resulting tableau column [1, 1] (truncated 3/2 and 3/3) also differs from
the exact scaling [3, 2] by the true LCM 6. -/
theorem scale_factor_not_lcm :
    compute_scale_factor [Rat.divInt 1 2, Rat.divInt 1 3] = some 3
    ∧ specLcmOfDenominators [Rat.divInt 1 2, Rat.divInt 1 3] = 6
    ∧ (3 : Int) ≠ 6
    ∧ scaleColumn [Rat.divInt 1 2, Rat.divInt 1 3] 3 = [1, 1]
    ∧ scaleColumn [Rat.divInt 1 2, Rat.divInt 1 3] 6 = [3, 2] := by
  refine ⟨by decide, by decide, by decide, by decide, by decide⟩

/-! ## C5: elimination of the row of a basic w(j) -/

/-- C5: the candidate-reduction loop eliminates the candidate at vector
INDEX `to_row(w(j))` (via `swap_remove`) instead of the candidate EQUAL to
that row.  With the initial n = 3 basis (w1 basic at row 0) and candidates
[1, 2], row 0 is not a candidate, so the claim says the candidate set is
retained; the code instead swap-removes index 0, dropping candidate row 1.
With w1 basic at row 2 and candidates [0, 1], `swap_remove(2)` is out of
bounds and the code panics, where the claim again says the candidates are
retained. -/
theorem candidate_elimination_wrong_index :
    (TableauVariables.new 3).is_basic ((TableauVariables.new 3).w 1) = true
    ∧ (TableauVariables.new 3).to_row ((TableauVariables.new 3).w 1) = 0
    ∧ (0 : Nat) ∉ [1, 2]
    ∧ swapRemove [1, 2] ((TableauVariables.new 3).to_row ((TableauVariables.new 3).w 1))
        = some [2]
    ∧ varsW1Row2.is_basic (varsW1Row2.w 1) = true
    ∧ varsW1Row2.to_row (varsW1Row2.w 1) = 2
    ∧ (2 : Nat) ∉ [0, 1]
    ∧ (∀ t ec fuel, process_candidates_loop t varsW1Row2 ec (fuel + 1) 1 [0, 1]
        = .error .indexOutOfBounds) := by
  refine ⟨by decide, by decide, by decide, by decide, by decide, by decide, by decide,
    fun t ec fuel => rfl⟩

/-! ## C6: scale-factor index in the reconstructed solution -/

/-- C6: with z1 basic at row 0, scale factors [1, 2, 3, 5], RHS entry 1 and
determinant 1, the code values z1 at `scale_factors[0] / 5 = 1/5` (it indexes
the scale factors by the ROW of the variable), while the claim (and the doc
comment of `result`) prescribes `scale_factors[1] / 5 = 2/5` (indexed by the
original column of z1).  The cobasic values and the solution length conform,
but the basic-value formula does not. -/
theorem result_scale_factor_by_row :
    varsZ1Row0.is_basic (varsZ1Row0.z 1) = true
    ∧ varsZ1Row0.to_row (varsZ1Row0.z 1) = 0
    ∧ varsZ1Row0.result tabZ1Row0 [1, 2, 3, 5] (varsZ1Row0.z 1) = Rat.divInt 1 5
    ∧ Rat.divInt (([1, 2, 3, 5] : List Int).getD 1 0
          * tabZ1Row0.entry 0 varsZ1Row0.rhs_col)
        (tabZ1Row0.determinant * ([1, 2, 3, 5] : List Int).getD varsZ1Row0.rhs_col 0)
        = Rat.divInt 2 5
    ∧ Rat.divInt 1 5 ≠ Rat.divInt 2 5 := by
  refine ⟨by decide, by decide, by decide, by decide, by decide⟩

/-! ## C10 counterexample: the two pivot implementations -/

/-- C10 counterexample: pivoting both implementations on the nonzero entry
-2 of a 1x3 tableau yields different determinants (2 from
src/lemke/tableau.rs, which takes the absolute value, and -2 from
src/lib.rs, which stores the signed pivot entry), refuting the claim that
they produce the same determinant value. -/
theorem pivot_implementations_determinant_differ :
    tabNegPivot.entry 0 0 ≠ 0
    ∧ (Tableau.pivot tabNegPivot 0 0).map Tableau.determinant = some 2
    ∧ (libPivot tabNegPivot 0 0).map Tableau.determinant = some (-2)
    ∧ ¬ ((Tableau.pivot tabNegPivot 0 0).map Tableau.determinant
          = (libPivot tabNegPivot 0 0).map Tableau.determinant) := by
  refine ⟨by decide, by decide, by decide, by decide⟩

/-! ## C10 amended: the two pivot implementations agree on the matrix -/

/-- The nested update loops of the two pivot implementations compute the same
matrix: their step functions differ only in the order of the multiplications
`A[i,j] * a` versus `a * A[i,j]` and `A[row,j] * A[i,col]` versus
`A[i,col] * A[row,j]`. -/
theorem pivotLoops_eq_libPivotLoops (t : Tableau) (row col : Nat) (a : Int)
    (negpivot : Bool) (D : Int) :
    t.pivotLoops row col a negpivot D = libPivotLoops t row col a negpivot D := by
  unfold Tableau.pivotLoops libPivotLoops
  refine List.foldl_ext _ _ t (fun acc i _ => ?_)
  by_cases hi : i = row
  · simp [hi]
  · simp only [if_neg hi]
    have hinner : ∀ (b : Bool) (acc0 : Tableau),
        (List.range acc0.ncols).foldl (fun acc2 j =>
          if j = col then acc2
          else
            let tmp1 := (acc2.entry i j) * a
            let tmp1 :=
              if b then
                let tmp2 := (acc2.entry row j) * (acc2.entry i col)
                if negpivot then tmp1 + tmp2 else tmp1 - tmp2
              else tmp1
            acc2.set i j (Int.tdiv tmp1 D)) acc0
        = (List.range acc0.ncols).foldl (fun acc2 j =>
          if j = col then acc2
          else
            let tmp1 := a * (acc2.entry i j)
            let tmp1 :=
              if b then
                let tmp2 := (acc2.entry i col) * (acc2.entry row j)
                if negpivot then tmp1 + tmp2 else tmp1 - tmp2
              else tmp1
            acc2.set i j (Int.tdiv tmp1 D)) acc0 := by
      intro b acc0
      refine List.foldl_ext _ _ acc0 (fun acc2 j _ => ?_)
      by_cases hj : j = col
      · simp [hj]
      · simp only [if_neg hj]
        cases b <;> cases negpivot <;> (congr 1) <;> ring_nf
    rw [hinner]

/-- C10 amended: for every tableau and pivot position, the two pivot
implementations produce the same resulting matrix entries (and they fail on
the same inputs); their determinants moreover agree whenever the pivot entry
is positive.  (The counterexample shows they differ on a negative pivot
entry, where src/lib.rs stores the signed entry and src/lemke/tableau.rs its
absolute value.) -/
theorem pivot_implementations_agree_on_entries (t : Tableau) (row col : Nat) :
    (Tableau.pivot t row col).map Tableau.values = (libPivot t row col).map Tableau.values
    ∧ (0 < t.entry row col → Tableau.pivot t row col = libPivot t row col) := by
  unfold Tableau.pivot libPivot
  by_cases hp : t.entry row col = 0
  · simp [hp]
  · simp only [if_neg hp, Option.map_some]
    rw [pivotLoops_eq_libPivotLoops]
    refine ⟨rfl, fun hpos => ?_⟩
    have : |t.entry row col| = t.entry row col := abs_of_pos hpos
    rw [this]

/-- Witness for the amended C10 theorem: on the sample tableau the pivot
entry at (0, 0) is 2 > 0 and the two implementations agree completely. -/
theorem pivot_implementations_agree_witness :
    0 < sampleTab.entry 0 0 ∧ Tableau.pivot sampleTab 0 0 = libPivot sampleTab 0 0 :=
  ⟨by decide, (pivot_implementations_agree_on_entries sampleTab 0 0).2 (by decide)⟩

/-! ## C8: the cross-ratio test -/

/-- C8: `ratio_test(ra, rb, ca, cb)` returns the sign of
`A[ra,cb] * A[rb,ca] - A[rb,cb] * A[ra,ca]`, and whenever both `A[ra,ca]` and
`A[rb,ca]` are positive this is exactly the ordering of the exact rationals
`A[ra,cb] / A[ra,ca]` and `A[rb,cb] / A[rb,ca]`. -/
theorem ratio_test_sign (t : Tableau) (ra rb ca cb : Nat) :
    t.ratio_test ra rb ca cb
      = compare (t.entry ra cb * t.entry rb ca - t.entry rb cb * t.entry ra ca) 0
    ∧ (0 < t.entry ra ca → 0 < t.entry rb ca →
        t.ratio_test ra rb ca cb
          = compare ((t.entry ra cb : Rat) / (t.entry ra ca : Rat))
              ((t.entry rb cb : Rat) / (t.entry rb ca : Rat))) := by
  have key : ∀ x y : Int, compare x y = compare (x - y) 0 := by
    intro x y
    rcases lt_trichotomy x y with h | h | h
    · rw [compare_lt_iff_lt.mpr h, compare_lt_iff_lt.mpr (sub_neg.mpr h)]
    · rw [compare_eq_iff_eq.mpr h, compare_eq_iff_eq.mpr (sub_eq_zero.mpr h)]
    · rw [compare_gt_iff_gt.mpr h, compare_gt_iff_gt.mpr (sub_pos.mpr h)]
  constructor
  · exact key _ _
  · intro hra hrb
    unfold Tableau.ratio_test
    have hraQ : (0 : Rat) < (t.entry ra ca : Rat) := by exact_mod_cast hra
    have hrbQ : (0 : Rat) < (t.entry rb ca : Rat) := by exact_mod_cast hrb
    rcases lt_trichotomy (t.entry ra cb * t.entry rb ca) (t.entry rb cb * t.entry ra ca)
      with h | h | h
    · rw [compare_lt_iff_lt.mpr h]
      have hq : (t.entry ra cb : Rat) / (t.entry ra ca : Rat)
          < (t.entry rb cb : Rat) / (t.entry rb ca : Rat) := by
        rw [div_lt_div_iff₀ hraQ hrbQ]
        exact_mod_cast h
      rw [compare_lt_iff_lt.mpr hq]
    · rw [compare_eq_iff_eq.mpr h]
      have hq : (t.entry ra cb : Rat) / (t.entry ra ca : Rat)
          = (t.entry rb cb : Rat) / (t.entry rb ca : Rat) := by
        rw [div_eq_div_iff (ne_of_gt hraQ) (ne_of_gt hrbQ)]
        exact_mod_cast h
      rw [compare_eq_iff_eq.mpr hq]
    · rw [compare_gt_iff_gt.mpr h]
      have hq : (t.entry rb cb : Rat) / (t.entry rb ca : Rat)
          < (t.entry ra cb : Rat) / (t.entry ra ca : Rat) := by
        rw [div_lt_div_iff₀ hrbQ hraQ]
        exact_mod_cast h
      rw [compare_gt_iff_gt.mpr hq]

/-- Witness for C8: on the sample tableau, both entries of column 1 are
positive and the ratio test at (0, 1, 1, 2) equals the rational ordering. -/
theorem ratio_test_sign_witness :
    0 < sampleTab.entry 0 1 ∧ 0 < sampleTab.entry 1 1
    ∧ sampleTab.ratio_test 0 1 1 2
        = compare ((sampleTab.entry 0 2 : Rat) / (sampleTab.entry 0 1 : Rat))
            ((sampleTab.entry 1 2 : Rat) / (sampleTab.entry 1 1 : Rat)) :=
  ⟨by decide, by decide, (ratio_test_sign sampleTab 0 1 1 2).2 (by decide) (by decide)⟩

/-! ## C7: ray termination -/

/-- The candidate-reduction loop never raises the ray-termination panic: its
only failures are the out-of-bounds panics (and the model fuel). -/
theorem process_candidates_loop_ne_ray (t : Tableau) (vars : TableauVariables)
    (ec : Nat) : ∀ fuel j cand,
    process_candidates_loop t vars ec fuel j cand ≠ .error .rayTermination := by
  intro fuel
  induction fuel with
  | zero =>
    intro j cand hc
    exact LcpError.noConfusion (Except.error.inj hc)
  | succ f ih =>
    intro j cand
    simp only [process_candidates_loop]
    by_cases h1 : cand.length > 1
    · simp only [if_pos h1]
      by_cases h2 : j > vars.n
      · simp only [if_pos h2]
        exact fun hc => LcpError.noConfusion (Except.error.inj hc)
      · simp only [if_neg h2]
        cases h3 : vars.is_basic (vars.w j) with
        | true =>
          simp only [h3, if_true]
          cases h4 : swapRemove cand (vars.to_row (vars.w j)) with
          | none =>
            simp only [h4]
            exact fun hc => LcpError.noConfusion (Except.error.inj hc)
          | some cand2 =>
            simp only [h4]
            exact ih (j + 1) cand2
        | false =>
          simp only [h3, Bool.false_eq_true, if_false]
          by_cases h5 : vars.to_col (vars.w j) ≠ ec
          · simp only [if_pos h5]
            exact ih (j + 1) _
          · simp only [if_neg h5]
            exact ih (j + 1) cand
    · simp only [if_neg h1]
      exact fun hc => Except.noConfusion hc

/-- `process_candidates` never raises the ray-termination panic. -/
theorem process_candidates_ne_ray (t : Tableau) (vars : TableauVariables)
    (ec : Nat) (cand : List Nat) :
    process_candidates t vars ec cand ≠ .error .rayTermination := by
  unfold process_candidates
  cases hpc : process_candidates_loop t vars ec (vars.n + 2) 1
      (process_rhs t vars ec cand).2 with
  | error e =>
    have hne := process_candidates_loop_ne_ray t vars ec (vars.n + 2) 1
      (process_rhs t vars ec cand).2
    rw [hpc] at hne
    simp only [bind, Except.bind, hpc]
    intro hc
    exact hne (by rw [Except.error.inj hc])
  | ok cand2 =>
    simp only [bind, Except.bind, hpc]
    exact fun hc => Except.noConfusion hc

/-- C7: for a cobasic entering variable, `lexminratio` fails with the
ray-termination error exactly when the entering column has no positive entry
among rows `0..n-1` (the candidate list is empty); when a positive entry
exists, the ray-termination error cannot be raised past that point. -/
theorem lexminratio_ray_iff (t : Tableau) (vars : TableauVariables)
    (enter : TableauVariable) (hco : vars.is_basic enter = false) :
    (leaveCandidateRows t vars (vars.to_col enter) = [] →
        lexminratio t vars enter = .error .rayTermination)
    ∧ (leaveCandidateRows t vars (vars.to_col enter) ≠ [] →
        lexminratio t vars enter ≠ .error .rayTermination) := by
  unfold lexminratio
  simp only [hco, Bool.false_eq_true, if_false]
  constructor
  · intro h
    simp [h]
  · intro h
    have hlen : ¬ ((leaveCandidateRows t vars (vars.to_col enter)).length = 0) := by
      simpa [List.length_eq_zero] using h
    simp only [if_neg hlen]
    cases hpc : process_candidates t vars (vars.to_col enter)
        (leaveCandidateRows t vars (vars.to_col enter)) with
    | error e =>
      have hne := process_candidates_ne_ray t vars (vars.to_col enter)
        (leaveCandidateRows t vars (vars.to_col enter))
      rw [hpc] at hne
      simp only [bind, Except.bind, hpc]
      intro hc
      exact hne (by rw [Except.error.inj hc])
    | ok pr =>
      simp only [bind, Except.bind, hpc]
      exact fun hc => Except.noConfusion hc

/-- Witness for C7: entering z0 on a 1x3 tableau with no positive entry in
column 0 is exactly the ray-termination case. -/
theorem lexminratio_ray_iff_witness :
    (TableauVariables.new 1).is_basic ((TableauVariables.new 1).z 0) = false
    ∧ ((leaveCandidateRows tabNoPositive (TableauVariables.new 1)
          ((TableauVariables.new 1).to_col ((TableauVariables.new 1).z 0)) = [] →
        lexminratio tabNoPositive (TableauVariables.new 1)
          ((TableauVariables.new 1).z 0) = .error .rayTermination)
      ∧ (leaveCandidateRows tabNoPositive (TableauVariables.new 1)
          ((TableauVariables.new 1).to_col ((TableauVariables.new 1).z 0)) ≠ [] →
        lexminratio tabNoPositive (TableauVariables.new 1)
          ((TableauVariables.new 1).z 0) ≠ .error .rayTermination)) :=
  ⟨by decide, lexminratio_ray_iff tabNoPositive (TableauVariables.new 1)
    ((TableauVariables.new 1).z 0) (by decide)⟩

/-! ## C9: the variable-map bijection invariant -/

theorem getD_ofFn (n : Nat) (f : Fin n → Nat) (i : Nat) (h : i < n) :
    (List.ofFn f).getD i 0 = f ⟨i, h⟩ := by
  rw [List.getD_eq_getElem _ _ (by simpa [List.length_ofFn] using h)]
  simp [List.getElem_ofFn]

/-- `getD` after `set` at the written index. -/
theorem getD_set_self (l : List Nat) (i a : Nat) (h : i < l.length) :
    (l.set i a).getD i 0 = a := by
  simp [List.getD_eq_getElem?_getD, List.getElem?_set, h]

/-- `getD` after `set` at a different index. -/
theorem getD_set_other (l : List Nat) {i j : Nat} (a : Nat) (h : i ≠ j) :
    (l.set i a).getD j 0 = l.getD j 0 := by
  simp [List.getD_eq_getElem?_getD, List.getElem?_set, h]

/-- Closed form of the initial `vars2rowcol` vector. -/
theorem new_vars2rowcol_getD (n v : Nat) (h : v < 2 * n + 1) :
    (TableauVariables.new n).vars2rowcol.getD v 0
      = if v ≤ n then n + v else v - n - 1 := by
  unfold TableauVariables.new
  dsimp only
  rw [getD_ofFn _ _ v h]

/-- Closed form of the initial `rowcol2vars` vector. -/
theorem new_rowcol2vars_getD (n p : Nat) (h : p < 2 * n + 1) :
    (TableauVariables.new n).rowcol2vars.getD p 0
      = if p < n then p + 1 + n else p - n := by
  unfold TableauVariables.new
  dsimp only
  rw [getD_ofFn _ _ p h]

/-- The initial variable map satisfies the bijection invariant. -/
theorem wf_new (n : Nat) : (TableauVariables.new n).wf := by
  refine ⟨?_, ?_, ?_, ?_⟩
  · show (TableauVariables.new n).vars2rowcol.length = 2 * (TableauVariables.new n).n + 1
    unfold TableauVariables.new
    dsimp only
    exact List.length_ofFn _
  · show (TableauVariables.new n).rowcol2vars.length = 2 * (TableauVariables.new n).n + 1
    unfold TableauVariables.new
    dsimp only
    exact List.length_ofFn _
  · intro v hv
    have hn : (TableauVariables.new n).n = n := rfl
    rw [hn] at hv ⊢
    rw [new_vars2rowcol_getD n v hv]
    by_cases hvn : v ≤ n
    · rw [if_pos hvn]
      refine ⟨by omega, ?_⟩
      rw [new_rowcol2vars_getD n (n + v) (by omega), if_neg (by omega)]
      omega
    · rw [if_neg hvn]
      refine ⟨by omega, ?_⟩
      rw [new_rowcol2vars_getD n (v - n - 1) (by omega), if_pos (by omega)]
      omega
  · intro p hp
    have hn : (TableauVariables.new n).n = n := rfl
    rw [hn] at hp ⊢
    rw [new_rowcol2vars_getD n p hp]
    by_cases hpn : p < n
    · rw [if_pos hpn]
      refine ⟨by omega, ?_⟩
      rw [new_vars2rowcol_getD n (p + 1 + n) (by omega), if_neg (by omega)]
      omega
    · rw [if_neg hpn]
      refine ⟨by omega, ?_⟩
      rw [new_vars2rowcol_getD n (p - n) (by omega), if_pos (by omega)]
      omega

/-- `swap` of a basic leaving variable with a cobasic entering variable
preserves the bijection invariant (and does not change `n`). -/
theorem swap_preserves_wf (vars : TableauVariables) (enter leave : TableauVariable)
    (hwf : vars.wf) (hl : leave.value < 2 * vars.n + 1) (he : enter.value < 2 * vars.n + 1)
    (hbl : vars.is_basic leave = true) (hbe : vars.is_basic enter = false) :
    (vars.swap enter leave).1.wf ∧ (vars.swap enter leave).1.n = vars.n := by
  obtain ⟨hlen1, hlen2, hv, hp⟩ := hwf
  have hpln : vars.vars2rowcol.getD leave.value 0 < vars.n := of_decide_eq_true hbl
  have hpen : ¬ vars.vars2rowcol.getD enter.value 0 < vars.n := by
    intro hc
    rw [show vars.is_basic enter = true from decide_eq_true hc] at hbe
    exact Bool.noConfusion hbe
  set pl := vars.vars2rowcol.getD leave.value 0 with hpl
  set pe := vars.vars2rowcol.getD enter.value 0 with hpe
  have hplN : pl < 2 * vars.n + 1 := (hv leave.value hl).1
  have hpeN : pe < 2 * vars.n + 1 := (hv enter.value he).1
  have hinvl : vars.rowcol2vars.getD pl 0 = leave.value := (hv leave.value hl).2
  have hinve : vars.rowcol2vars.getD pe 0 = enter.value := (hv enter.value he).2
  have hple : pl ≠ pe := by omega
  have hvne : leave.value ≠ enter.value := fun hc => hple (by rw [hpl, hpe, hc])
  have hcol : vars.to_col enter + vars.n = pe := by
    unfold TableauVariables.to_col
    rw [← hpe]
    omega
  have hrow : vars.to_row leave = pl := rfl
  have hswap1 : (vars.swap enter leave).1
      = { vars2rowcol := (vars.vars2rowcol.set leave.value pe).set enter.value pl,
          rowcol2vars := (vars.rowcol2vars.set pe leave.value).set pl enter.value,
          n := vars.n } := by
    unfold TableauVariables.swap
    dsimp only
    rw [hcol, hrow]
  rw [hswap1]
  refine ⟨⟨?_, ?_, ?_, ?_⟩, rfl⟩
  · dsimp only
    rw [List.length_set, List.length_set]
    exact hlen1
  · dsimp only
    rw [List.length_set, List.length_set]
    exact hlen2
  · dsimp only
    intro v hvN
    by_cases hveq : v = enter.value
    · subst hveq
      rw [getD_set_self _ _ _ (by rw [List.length_set]; omega)]
      refine ⟨by omega, ?_⟩
      rw [getD_set_self _ _ _ (by rw [List.length_set]; omega)]
    · rw [getD_set_other _ _ (fun hc => hveq hc.symm)]
      by_cases hvleq : v = leave.value
      · subst hvleq
        rw [getD_set_self _ _ _ (by omega)]
        refine ⟨by omega, ?_⟩
        rw [getD_set_other _ _ hple, getD_set_self _ _ _ (by omega)]
      · rw [getD_set_other _ _ (fun hc => hvleq hc.symm)]
        refine ⟨(hv v hvN).1, ?_⟩
        have hpv : vars.rowcol2vars.getD (vars.vars2rowcol.getD v 0) 0 = v := (hv v hvN).2
        have hne1 : vars.vars2rowcol.getD v 0 ≠ pl := by
          intro hc
          rw [hc, hinvl] at hpv
          exact hvleq hpv.symm
        have hne2 : vars.vars2rowcol.getD v 0 ≠ pe := by
          intro hc
          rw [hc, hinve] at hpv
          exact hveq hpv.symm
        rw [getD_set_other _ _ (fun hc => hne1 hc.symm),
          getD_set_other _ _ (fun hc => hne2 hc.symm)]
        exact hpv
  · dsimp only
    intro p hpN
    by_cases hpeq : p = pl
    · subst hpeq
      rw [getD_set_self _ _ _ (by rw [List.length_set]; omega)]
      refine ⟨by omega, ?_⟩
      rw [getD_set_self _ _ _ (by rw [List.length_set]; omega)]
    · rw [getD_set_other _ _ (fun hc => hpeq hc.symm)]
      by_cases hpeq2 : p = pe
      · subst hpeq2
        rw [getD_set_self _ _ _ (by omega)]
        refine ⟨by omega, ?_⟩
        rw [getD_set_other _ _ (fun hc => hvne hc.symm), getD_set_self _ _ _ (by omega)]
      · rw [getD_set_other _ _ (fun hc => hpeq2 hc.symm)]
        refine ⟨(hp p hpN).1, ?_⟩
        have hvp : vars.vars2rowcol.getD (vars.rowcol2vars.getD p 0) 0 = p := (hp p hpN).2
        have hne1 : vars.rowcol2vars.getD p 0 ≠ enter.value := by
          intro hc
          rw [hc, ← hpe] at hvp
          exact hpeq2 hvp.symm
        have hne2 : vars.rowcol2vars.getD p 0 ≠ leave.value := by
          intro hc
          rw [hc, ← hpl] at hvp
          exact hpeq hvp.symm
        rw [getD_set_other _ _ (fun hc => hne1 hc.symm),
          getD_set_other _ _ (fun hc => hne2 hc.symm)]
        exact hvp

/-- Counting the elements of `range N` below `n`. -/
theorem countP_range_lt (N n : Nat) (h : n ≤ N) :
    (List.range N).countP (fun x => decide (x < n)) = n := by
  induction N with
  | zero =>
    have hn0 : n = 0 := Nat.le_zero.mp h
    subst hn0
    rfl
  | succ N ih =>
    rw [List.range_succ, List.countP_append, List.countP_singleton]
    by_cases hn : n ≤ N
    · rw [ih hn]
      have hnn : ¬ (N < n) := by omega
      simp [hnn]
    · have hnn : n = N + 1 := by omega
      subst hnn
      have hall : ∀ a ∈ List.range N, (fun x => decide (x < N + 1)) a = true := by
        intro a ha
        simp only [List.mem_range] at ha
        simp only [decide_eq_true_eq]
        omega
      rw [List.countP_eq_length.mpr hall, List.length_range]
      simp

/-- Under the bijection invariant, `vars2rowcol` is a permutation of
`0..2n`. -/
theorem wf_vars2rowcol_perm (vars : TableauVariables) (hwf : vars.wf) :
    vars.vars2rowcol.Perm (List.range (2 * vars.n + 1)) := by
  obtain ⟨hlen1, hlen2, hv, hp⟩ := hwf
  have hnodup : vars.vars2rowcol.Nodup := by
    rw [List.nodup_iff_injective_get]
    intro i j hij
    have hgi : vars.vars2rowcol.getD i.1 0 = vars.vars2rowcol.get i := by
      rw [List.getD_eq_getElem _ _ i.isLt, List.get_eq_getElem]
    have hgj : vars.vars2rowcol.getD j.1 0 = vars.vars2rowcol.get j := by
      rw [List.getD_eq_getElem _ _ j.isLt, List.get_eq_getElem]
    have hiN : i.1 < 2 * vars.n + 1 := by
      have := i.isLt
      omega
    have hjN : j.1 < 2 * vars.n + 1 := by
      have := j.isLt
      omega
    have h1 := (hv i.1 hiN).2
    have h2 := (hv j.1 hjN).2
    rw [hgi, hij, ← hgj] at h1
    rw [h2] at h1
    exact Fin.ext h1.symm
  have hsubset : vars.vars2rowcol ⊆ List.range (2 * vars.n + 1) := by
    intro x hx
    rw [List.mem_iff_getElem] at hx
    obtain ⟨k, hk, rfl⟩ := hx
    rw [List.mem_range]
    have hkN : k < 2 * vars.n + 1 := by omega
    have hb := (hv k hkN).1
    rw [List.getD_eq_getElem _ _ hk] at hb
    exact hb
  exact (hnodup.subperm hsubset).perm_of_length_le (by rw [List.length_range, hlen1])

/-- Under the bijection invariant there are exactly `n` basic and `n + 1`
cobasic variables. -/
theorem wf_counts (vars : TableauVariables) (hwf : vars.wf) :
    basicCount vars = vars.n ∧ cobasicCount vars = vars.n + 1 := by
  have hperm := wf_vars2rowcol_perm vars hwf
  have hb : basicCount vars = vars.n := by
    unfold basicCount
    rw [hperm.countP_eq, countP_range_lt _ _ (by omega)]
  refine ⟨hb, ?_⟩
  unfold cobasicCount
  rw [hperm.countP_eq]
  have hlen := List.length_eq_countP_add_countP (fun x => decide (x < vars.n))
    (List.range (2 * vars.n + 1))
  rw [List.length_range, countP_range_lt _ _ (by omega)] at hlen
  have hfun : (fun p => decide (¬ p < vars.n))
      = (fun a => decide (¬ (decide (a < vars.n)) = true)) := by
    funext a
    by_cases h : a < vars.n <;> simp [h]
  rw [hfun]
  omega

/-- C9: the initial variable map satisfies the mutual-inverse invariant;
every successful `pivot` (which checks that the leaving variable is basic
and the entering variable cobasic and then swaps their positions) preserves
it; and the invariant forces exactly `n` basic and `n + 1` cobasic
variables at all times. -/
theorem variable_map_bijection_invariant :
    (∀ n, (TableauVariables.new n).wf)
    ∧ (∀ (vars : TableauVariables) (t : Tableau) (leave enter : TableauVariable)
        (vars2 : TableauVariables) (t2 : Tableau),
        vars.wf → leave.value < 2 * vars.n + 1 → enter.value < 2 * vars.n + 1 →
        vars.pivot t leave enter = .ok (vars2, t2) →
        vars2.wf ∧ vars2.n = vars.n)
    ∧ (∀ vars : TableauVariables, vars.wf →
        basicCount vars = vars.n ∧ cobasicCount vars = vars.n + 1) := by
  refine ⟨wf_new, ?_, wf_counts⟩
  intro vars t leave enter vars2 t2 hwf hl he hok
  unfold TableauVariables.pivot at hok
  by_cases h1 : vars.is_basic leave = true
  · simp only [h1, Bool.not_true, Bool.false_eq_true, if_false] at hok
    by_cases h2 : vars.is_basic enter = true
    · simp [h2] at hok
    · have hb : vars.is_basic enter = false := by
        cases hbe : vars.is_basic enter
        · rfl
        · exact absurd hbe h2
      simp only [hb, Bool.false_eq_true, if_false] at hok
      rcases hsw : vars.swap enter leave with ⟨vs, r1, c1⟩
      rw [hsw] at hok
      dsimp only at hok
      cases hpv : t.pivot r1 c1 with
      | none => simp [hpv] at hok
      | some t3 =>
        rw [hpv] at hok
        have hinj := Except.ok.inj hok
        have hv2 : vs = vars2 := congrArg Prod.fst hinj
        have hpres := swap_preserves_wf vars enter leave hwf hl he h1 hb
        rw [hsw] at hpres
        dsimp only at hpres
        rw [hv2] at hpres
        exact hpres
  · have hb : (!vars.is_basic leave) = true := by
      cases hbe : vars.is_basic leave
      · rfl
      · exact absurd hbe h1
    simp [hb] at hok

/-- Witness for C9: instantiated at n = 2, at the concrete first pivot
(w1 leaves, z0 enters) on the sample tableau. -/
theorem variable_map_bijection_invariant_witness :
    (TableauVariables.new 2).wf
    ∧ (varsAfterPivot.wf ∧ varsAfterPivot.n = (TableauVariables.new 2).n)
    ∧ (basicCount (TableauVariables.new 2) = 2 ∧ cobasicCount (TableauVariables.new 2) = 3) :=
  ⟨variable_map_bijection_invariant.1 2,
   variable_map_bijection_invariant.2.1 (TableauVariables.new 2) sampleTab
     ((TableauVariables.new 2).w 1) ((TableauVariables.new 2).z 0)
     varsAfterPivot tabAfterPivot
     (variable_map_bijection_invariant.1 2) (by decide) (by decide) (by decide),
   variable_map_bijection_invariant.2.2 (TableauVariables.new 2)
     (variable_map_bijection_invariant.1 2)⟩
